import Mathlib

/-!
Verification of the resilient chain-data layer and arbitrage-detection engine
of the PolygonARB bot (poolfetcher.js, its HTTP-polling variant, and
dataprovider.js), via a shallow embedding in Lean 4.

Modelling conventions:
* JavaScript numbers are modelled by `JsNum`: an exact rational for every
  finite value plus the three non-finite values NaN, +Infinity, -Infinity.
  Finite arithmetic is modelled exactly over the rationals (no rounding or
  overflow); the special-value propagation rules of IEEE/JS arithmetic
  (NaN propagation, Infinity - Infinity = NaN, x / Infinity = 0, positive/0 =
  Infinity, ...) are reproduced faithfully.  Signed zero is collapsed to 0.
* On-chain reserves are uint112 values converted by the code with Number();
  they are modelled as rationals.
* Asynchronous network fetches (getPairInfo, getTokenPrices) are modelled as
  oracle inputs: the values they would return are passed as arguments.
* Strings (addresses, dex names, pair keys) are Lean strings; the JS
  built-ins String.prototype.toLowerCase and the < string comparison are
  modelled directly (jsToLower, jsStrLtb) as code-point-wise functions on the
  underlying character lists, which for the ASCII addresses and names of this
  program is exactly the JS behaviour.
* Where a claim is sensitive to binary64 rounding, the correctly rounded
  double of a rational is modelled explicitly (roundNE, roundToGrid: round to
  nearest, ties to even, on the binade grid), and concrete inputs of other
  claims are chosen so that their binary64 evaluation is exact.
-/

/-- Model of a JavaScript number: a finite rational or one of the three
non-finite values. -/
inductive JsNum where
  | num : ℚ → JsNum
  | nan : JsNum
  | inf : JsNum
  | ninf : JsNum
deriving DecidableEq, Repr

namespace JsNum

/-- JS unary negation. -/
@[simp] def neg : JsNum → JsNum
  | num q => num (-q)
  | nan => nan
  | inf => ninf
  | ninf => inf

/-- JS addition: NaN propagates; Infinity + (-Infinity) = NaN. -/
@[simp] def add : JsNum → JsNum → JsNum
  | nan, _ => nan
  | _, nan => nan
  | inf, ninf => nan
  | ninf, inf => nan
  | inf, _ => inf
  | _, inf => inf
  | ninf, _ => ninf
  | _, ninf => ninf
  | num a, num b => num (a + b)

/-- JS subtraction, a - b = a + (-b). -/
@[simp] def sub (a b : JsNum) : JsNum := add a (neg b)

/-- JS multiplication: NaN propagates; Infinity * 0 = NaN. -/
@[simp] def mul : JsNum → JsNum → JsNum
  | nan, _ => nan
  | _, nan => nan
  | num a, num b => num (a * b)
  | inf, num q => if q = 0 then nan else if 0 < q then inf else ninf
  | num q, inf => if q = 0 then nan else if 0 < q then inf else ninf
  | ninf, num q => if q = 0 then nan else if 0 < q then ninf else inf
  | num q, ninf => if q = 0 then nan else if 0 < q then ninf else inf
  | inf, inf => inf
  | inf, ninf => ninf
  | ninf, inf => ninf
  | ninf, ninf => inf

/-- JS division: NaN propagates; Infinity / Infinity = NaN; q / Infinity = 0;
nonzero / 0 = signed Infinity; 0 / 0 = NaN. -/
@[simp] def div : JsNum → JsNum → JsNum
  | nan, _ => nan
  | _, nan => nan
  | inf, inf => nan
  | inf, ninf => nan
  | ninf, inf => nan
  | ninf, ninf => nan
  | inf, num q => if q < 0 then ninf else inf
  | ninf, num q => if q < 0 then inf else ninf
  | num _, inf => num 0
  | num _, ninf => num 0
  | num a, num b =>
      if b = 0 then (if a = 0 then nan else if 0 < a then inf else ninf)
      else num (a / b)

/-- JS Math.abs. -/
@[simp] def abs : JsNum → JsNum
  | num q => num |q|
  | nan => nan
  | inf => inf
  | ninf => inf

/-- JS Number.isFinite. -/
@[simp] def isFinite : JsNum → Bool
  | num _ => true
  | _ => false

/-- JS truthiness of a number: 0 and NaN are falsy, everything else truthy. -/
@[simp] def truthy : JsNum → Bool
  | num q => decide (q ≠ 0)
  | nan => false
  | inf => true
  | ninf => true

/-- JS a || b on numbers. -/
@[simp] def orElse (a b : JsNum) : JsNum := if truthy a then a else b

/-- JS strict greater-than: any comparison with NaN is false. -/
@[simp] def gtB : JsNum → JsNum → Bool
  | nan, _ => false
  | _, nan => false
  | inf, inf => false
  | inf, _ => true
  | _, inf => false
  | ninf, _ => false
  | num _, ninf => true
  | num a, num b => decide (b < a)

/-- JS greater-or-equal: any comparison with NaN is false. -/
@[simp] def geB : JsNum → JsNum → Bool
  | nan, _ => false
  | _, nan => false
  | inf, _ => true
  | num _, inf => false
  | ninf, ninf => true
  | ninf, _ => false
  | num _, ninf => true
  | num a, num b => decide (b ≤ a)

/-- JS Math.max of two numbers: NaN if either argument is NaN. -/
@[simp] def max : JsNum → JsNum → JsNum
  | nan, _ => nan
  | _, nan => nan
  | inf, _ => inf
  | _, inf => inf
  | ninf, b => b
  | a, ninf => a
  | num a, num b => num (if a < b then b else a)

end JsNum

/-!  === PROFIT ESTIMATION HELPERS (poolfetcher.js lines 190-235) === -/

/-- The static DEX_FEE_BPS table of poolfetcher.js. -/
def DEX_FEE_BPS : String → Option ℚ := fun name =>
  if name = "QuickSwap" then some 30
  else if name = "QuickSwap V2" then some 30
  else if name = "QuickSwap V3" then some 5
  else if name = "SushiSwap" then some 30
  else if name = "SushiSwap V2" then some 30
  else if name = "SushiSwap V3" then some 5
  else if name = "Uniswap" then some 30
  else if name = "Uniswap V3" then some 5
  else if name = "DODO" then some 10
  else if name = "KyberSwap Elastic" then some 10
  else none

def DEFAULT_FEE_BPS : ℚ := 30

def MIN_LIQUIDITY_USD : ℚ := 50000

def ARB_THRESHOLD : ℚ := 1 / 100

def NOTIONAL_USD : ℚ := 10000

def MIN_PROFIT_USD : ℚ := 40

/-- feeBpsForDex: table lookup with the ?? DEFAULT_FEE_BPS fallback. -/
def feeBpsForDex (name : String) : ℚ := (DEX_FEE_BPS name).getD DEFAULT_FEE_BPS

/-- bpsToFrac: bps / 10_000. -/
def bpsToFrac (bps : ℚ) : ℚ := bps / 10000

/-- Body of estimateDirectEdge after the fee sum has been computed: relative
price difference against the midpoint (with the (mid || 1) guard), minus the
fee, clamped at zero, with non-finite results mapped to 0. -/
def estimateDirectEdgeFee (priceA priceB : JsNum) (fee : ℚ) : JsNum :=
  let relDiff := JsNum.div (JsNum.abs (JsNum.sub priceA priceB))
    (JsNum.orElse (JsNum.div (JsNum.add priceA priceB) (JsNum.num 2)) (JsNum.num 1))
  let edge := JsNum.sub relDiff (JsNum.num fee)
  if edge.isFinite then JsNum.max edge (JsNum.num 0) else JsNum.num 0

/-- estimateDirectEdge of poolfetcher.js: the fee is the sum of the two
exchanges fee fractions looked up by name. -/
def estimateDirectEdge (priceA priceB : JsNum) (dexA dexB : String) : JsNum :=
  estimateDirectEdgeFee priceA priceB
    (bpsToFrac (feeBpsForDex dexA) + bpsToFrac (feeBpsForDex dexB))

/-- estimateTriEdge of poolfetcher.js: gross = (Number(cycleRate) || 0) - 1,
minus the sum of the leg fee fractions, clamped at zero, non-finite to 0. -/
def estimateTriEdge (cycleRate : JsNum) (dexs : List String) : JsNum :=
  let gross := JsNum.sub (JsNum.orElse cycleRate (JsNum.num 0)) (JsNum.num 1)
  let totalFees := dexs.foldl (fun s d => s + bpsToFrac (feeBpsForDex d)) 0
  let edge := JsNum.sub gross (JsNum.num totalFees)
  if edge.isFinite then JsNum.max edge (JsNum.num 0) else JsNum.num 0

/-- edgeToProfitUSD: (Number(edgeFrac) || 0), then e > 0 ? e * notional : 0. -/
def edgeToProfitUSD (edgeFrac : JsNum) : JsNum :=
  let e := JsNum.orElse edgeFrac (JsNum.num 0)
  if JsNum.gtB e (JsNum.num 0) then JsNum.mul e (JsNum.num NOTIONAL_USD)
  else JsNum.num 0

/-- calcPrice of poolfetcher.js: r0 = Number(reserve0 || 0), r1 likewise;
(r0 > 0 && r1 > 0) ? r0 / r1 : 0. -/
def calcPrice (reserve0 reserve1 : JsNum) : JsNum :=
  let r0 := JsNum.orElse reserve0 (JsNum.num 0)
  let r1 := JsNum.orElse reserve1 (JsNum.num 0)
  if JsNum.gtB r0 (JsNum.num 0) && JsNum.gtB r1 (JsNum.num 0)
  then JsNum.div r0 r1 else JsNum.num 0

/-! === PAIR KEY AND POOL REGISTRY (poolfetcher.js lines 300-303, 504-532) === -/

/-- JS String.prototype.toLowerCase on one character (ASCII range, which
covers hex addresses and exchange names). -/
def jsCharToLower (c : Char) : Char :=
  if 'A' ≤ c ∧ c ≤ 'Z' then Char.ofNat (c.toNat + 32) else c

/-- JS String.prototype.toLowerCase. -/
def jsToLower (s : String) : String := String.mk (s.data.map jsCharToLower)

/-- Lexicographic code-point comparison of character lists: the JS < operator
on strings. -/
def charListLtb : List Char → List Char → Bool
  | _, [] => false
  | [], _ :: _ => true
  | a :: as, b :: bs =>
      if a < b then true else if b < a then false else charListLtb as bs

/-- JS < on strings. -/
def jsStrLtb (a b : String) : Bool := charListLtb a.data b.data

lemma charListLtb_asymm (as bs : List Char) (h : charListLtb as bs = true) :
    charListLtb bs as = false := by
  induction as generalizing bs with
  | nil =>
    cases bs with
    | nil => simp [charListLtb] at h
    | cons b bs => simp [charListLtb]
  | cons a as ih =>
    cases bs with
    | nil => simp [charListLtb] at h
    | cons b bs =>
      simp only [charListLtb] at h ⊢
      by_cases hab : a < b
      · have hba : ¬ b < a := lt_asymm hab
        simp [hab, hba]
      · by_cases hba : b < a
        · simp [hab, hba] at h
        · simp only [hab, hba, if_false] at h ⊢
          simp [ih bs h]

lemma charListLtb_eq (as bs : List Char) (h1 : charListLtb as bs = false)
    (h2 : charListLtb bs as = false) : as = bs := by
  induction as generalizing bs with
  | nil =>
    cases bs with
    | nil => rfl
    | cons b bs => simp [charListLtb] at h1
  | cons a as ih =>
    cases bs with
    | nil => simp [charListLtb] at h2
    | cons b bs =>
      simp only [charListLtb] at h1 h2
      by_cases hab : a < b
      · simp [hab] at h1
      · by_cases hba : b < a
        · simp [hab, hba] at h2
        · have : a = b := le_antisymm (not_lt.mp hba) (not_lt.mp hab)
          subst this
          simp [lt_irrefl, hab] at h1 h2
          rw [ih bs h1 h2]

/-- pairKey of poolfetcher.js: lowercase both addresses and join them with a
bar separator in lexicographic order. -/
def pairKey (a b : String) : String :=
  let A := jsToLower a
  let B := jsToLower b
  if jsStrLtb A B then A ++ "|" ++ B else B ++ "|" ++ A

/-- A pool object as assembled at bootstrap: dex name spread over the
getPairInfo result.  Reserves are the uint112 values (as exact rationals). -/
structure RawPool where
  dex : String
  pairAddr : String
  token0 : String
  token1 : String
  reserve0 : ℚ
  reserve1 : ℚ
deriving DecidableEq, Repr

/-- The usd price the code reads for a token:
prices[token.toLowerCase()]?.usd || 0. -/
def tokenPriceUsd (prices : String → Option ℚ) (t : String) : ℚ :=
  (prices (jsToLower t)).getD 0

/-- The liquidityUSD expression of the bootstrap filter:
p0 * Number(reserve0) / 10^18 + p1 * Number(reserve1) / 10^18. -/
def liquidityUSD (prices : String → Option ℚ) (p : RawPool) : ℚ :=
  tokenPriceUsd prices p.token0 * p.reserve0 / 10 ^ 18 +
  tokenPriceUsd prices p.token1 * p.reserve1 / 10 ^ 18

/-- filteredPools: keep the pools whose liquidityUSD is at least
MIN_LIQUIDITY_USD. -/
def filteredPools (prices : String → Option ℚ) (allPools : List RawPool) :
    List RawPool :=
  allPools.filter fun p => decide (MIN_LIQUIDITY_USD ≤ liquidityUSD prices p)

/-- One step of the poolsByPairKey build loop:
(poolsByPairKey[key] ||= []).push(p). -/
def pairIndexStep (m : String → List RawPool) (p : RawPool) :
    String → List RawPool :=
  fun k => if k = pairKey p.token0 p.token1 then m k ++ [p] else m k

/-- The poolsByPairKey index built over a pool list. -/
def poolsByPairKeyBuild (pools : List RawPool) : String → List RawPool :=
  pools.foldl pairIndexStep (fun _ => [])

/-- One step of the poolsByAddr build loop:
poolsByAddr[p.pairAddr.toLowerCase()] = p. -/
def addrIndexStep (m : String → Option RawPool) (p : RawPool) :
    String → Option RawPool :=
  fun a => if a = jsToLower p.pairAddr then some p else m a

/-- The poolsByAddr index built over a pool list. -/
def poolsByAddrBuild (pools : List RawPool) : String → Option RawPool :=
  pools.foldl addrIndexStep (fun _ => none)

/-- One step of the poolsByToken build loop: the pool is pushed under its
token0 entry and then under its token1 entry. -/
def tokenIndexStep (m : String → List RawPool) (p : RawPool) :
    String → List RawPool :=
  let m1 := fun t => if t = p.token0 then m t ++ [p] else m t
  fun t => if t = p.token1 then m1 t ++ [p] else m1 t

/-- The poolsByToken index built over a pool list. -/
def poolsByTokenBuild (pools : List RawPool) : String → List RawPool :=
  pools.foldl tokenIndexStep (fun _ => [])

lemma mem_foldl_pairIndexStep (pools : List RawPool) (m : String → List RawPool)
    (k : String) (q : RawPool) :
    q ∈ (pools.foldl pairIndexStep m) k ↔
      q ∈ m k ∨ (q ∈ pools ∧ k = pairKey q.token0 q.token1) := by
  induction pools generalizing m with
  | nil => simp
  | cons p ps ih =>
    rw [List.foldl_cons, ih]
    by_cases h : k = pairKey p.token0 p.token1 <;>
      simp only [pairIndexStep, h, if_true, if_false, List.mem_append,
        List.mem_singleton, List.mem_cons] <;> aesop

lemma mem_poolsByPairKeyBuild (pools : List RawPool) (k : String) (q : RawPool) :
    q ∈ poolsByPairKeyBuild pools k ↔
      (q ∈ pools ∧ k = pairKey q.token0 q.token1) := by
  unfold poolsByPairKeyBuild
  rw [mem_foldl_pairIndexStep]
  simp

lemma mem_tokenIndexStep (m : String → List RawPool) (p : RawPool) (t : String)
    (q : RawPool) :
    q ∈ tokenIndexStep m p t ↔
      q ∈ m t ∨ (q = p ∧ (t = p.token0 ∨ t = p.token1)) := by
  simp only [tokenIndexStep]
  by_cases h1 : t = p.token1
  · rw [if_pos h1]
    by_cases h0 : t = p.token0
    · rw [if_pos h0]
      simp only [List.mem_append, List.mem_singleton]
      tauto
    · rw [if_neg h0]
      simp only [List.mem_append, List.mem_singleton]
      tauto
  · rw [if_neg h1]
    by_cases h0 : t = p.token0
    · rw [if_pos h0]
      simp only [List.mem_append, List.mem_singleton]
      tauto
    · rw [if_neg h0]
      tauto

lemma mem_foldl_tokenIndexStep (pools : List RawPool) (m : String → List RawPool)
    (t : String) (q : RawPool) :
    q ∈ (pools.foldl tokenIndexStep m) t ↔
      q ∈ m t ∨ (q ∈ pools ∧ (t = q.token0 ∨ t = q.token1)) := by
  induction pools generalizing m with
  | nil => simp
  | cons p ps ih =>
    rw [List.foldl_cons, ih, mem_tokenIndexStep]
    simp only [List.mem_cons]
    constructor
    · rintro ((hm | ⟨rfl, ht⟩) | ⟨hps, ht⟩)
      · exact Or.inl hm
      · exact Or.inr ⟨Or.inl rfl, ht⟩
      · exact Or.inr ⟨Or.inr hps, ht⟩
    · rintro (hm | ⟨(rfl | hps), ht⟩)
      · exact Or.inl (Or.inl hm)
      · exact Or.inl (Or.inr ⟨rfl, ht⟩)
      · exact Or.inr ⟨hps, ht⟩

lemma mem_poolsByTokenBuild (pools : List RawPool) (t : String) (q : RawPool) :
    q ∈ poolsByTokenBuild pools t ↔
      (q ∈ pools ∧ (t = q.token0 ∨ t = q.token1)) := by
  unfold poolsByTokenBuild
  rw [mem_foldl_tokenIndexStep]
  simp

lemma foldl_addrIndexStep_eq_some (pools : List RawPool)
    (m : String → Option RawPool) (a : String) (q : RawPool) :
    (pools.foldl addrIndexStep m) a = some q →
      m a = some q ∨ (q ∈ pools ∧ a = jsToLower q.pairAddr) := by
  induction pools generalizing m with
  | nil => simp
  | cons p ps ih =>
    intro h
    rw [List.foldl_cons] at h
    rcases ih (addrIndexStep m p) h with h2 | h2
    · by_cases ha : a = jsToLower p.pairAddr
      · simp only [addrIndexStep, ha, if_true, Option.some.injEq] at h2
        subst h2
        exact Or.inr ⟨List.mem_cons_self _ _, ha⟩
      · simp only [addrIndexStep, ha, if_false] at h2
        exact Or.inl h2
    · exact Or.inr ⟨List.mem_cons_of_mem _ h2.1, h2.2⟩

lemma poolsByAddrBuild_eq_some (pools : List RawPool) (a : String) (q : RawPool) :
    poolsByAddrBuild pools a = some q → q ∈ pools ∧ a = jsToLower q.pairAddr := by
  intro h
  rcases foldl_addrIndexStep_eq_some pools (fun _ => none) a q h with h2 | h2
  · simp at h2
  · exact h2

lemma mem_filteredPools (prices : String → Option ℚ) (pools : List RawPool)
    (q : RawPool) :
    q ∈ filteredPools prices pools ↔
      (q ∈ pools ∧ MIN_LIQUIDITY_USD ≤ liquidityUSD prices q) := by
  simp [filteredPools, List.mem_filter]

/-! === RESILIENT READ PROVIDER (dataprovider.js lines 34-91) === -/

/-- A registered subscription of the read provider: a block handler or a
(log filter, handler) pair.  Handlers and filters are identified by tags. -/
inductive SubEntry where
  | block (handler : ℕ)
  | log (filter : ℕ) (handler : ℕ)
deriving DecidableEq, Repr

/-- The hardcoded read RPC endpoint list of dataprovider.js. -/
def READ_RPC_URLS : List String :=
  ["https://polygon-mainnet.g.alchemy.com/v2/C3-3l0i9jKmV2y_07pPCd",
   "https://polygon-bor-rpc.publicnode.com",
   "https://polygon-rpc.com",
   "https://rpc-mainnet.matic.network",
   "https://matic-mainnet.chainstacklabs.com"]

/-- Read-side state of dataprovider.js: the active endpoint index _rIdx, the
subscription registry _subs, and the listeners attached to the live provider
object, in attachment order. -/
structure ReadState where
  rIdx : ℕ
  subs : List SubEntry
  providerListeners : List SubEntry
deriving DecidableEq, Repr

/-- addBlockListener of dataprovider.js: attach to the live provider first,
then record the subscription in _subs. -/
def addBlockListener (st : ReadState) (handler : ℕ) : ReadState :=
  { st with
    providerListeners := st.providerListeners ++ [SubEntry.block handler],
    subs := st.subs ++ [SubEntry.block handler] }

/-- addLogListener of dataprovider.js: attach, then record. -/
def addLogListener (st : ReadState) (filter handler : ℕ) : ReadState :=
  { st with
    providerListeners := st.providerListeners ++ [SubEntry.log filter handler],
    subs := st.subs ++ [SubEntry.log filter handler] }

/-- _rotateRead of dataprovider.js: advance _rIdx, replace the provider by a
fresh one (no listeners), and reattach every recorded subscription in the
order it was added. -/
def rotateRead (st : ReadState) : ReadState :=
  { rIdx := (st.rIdx + 1) % READ_RPC_URLS.length,
    subs := st.subs,
    providerListeners := st.subs.foldl (fun ls s => ls ++ [s]) [] }

lemma foldl_append_singleton (l init : List SubEntry) :
    l.foldl (fun ls s => ls ++ [s]) init = init ++ l := by
  induction l generalizing init with
  | nil => simp
  | cons s ss ih => rw [List.foldl_cons, ih]; simp

/-! === WEBSOCKET PROVIDER FAILOVER (poolfetcher.js lines 51-187, 320-334) === -/

/-- A listener attached to the live WebSocketProvider of poolfetcher.js. -/
inductive WsListener where
  | error (handler : ℕ)
  | block (handler : ℕ)
  | log (filter : ℕ) (handler : ℕ)
deriving DecidableEq, Repr

/-- State of the WebSocket side of poolfetcher.js: currentIndex into WSS_URLS
and the listeners attached to the live provider object.  The endpoint count is
a parameter because WSS_URLS comes from the environment. -/
structure PFState where
  currentIndex : ℕ
  listeners : List WsListener
deriving DecidableEq, Repr

/-- connectProvider of poolfetcher.js: a fresh WebSocketProvider carrying only
the onProvError listener (tag 0). -/
def connectProviderPF (st : PFState) : PFState :=
  { st with listeners := [WsListener.error 0] }

/-- startListeners of poolfetcher.js: attaches the block listener (tag 1) to
the live provider. -/
def startListenersPF (st : PFState) : PFState :=
  { st with listeners := st.listeners ++ [WsListener.block 1] }

/-- startSwapWatch registers its swap handler directly on the live provider
via provider.on(filter, handler); nothing records it for re-attachment. -/
def startSwapWatchPF (st : PFState) (filter handler : ℕ) : PFState :=
  { st with listeners := st.listeners ++ [WsListener.log filter handler] }

/-- failover of poolfetcher.js: advance currentIndex, reconnect (fresh
provider), then run startListeners.  No other listener is re-attached. -/
def failoverPF (numUrls : ℕ) (st : PFState) : PFState :=
  startListenersPF (connectProviderPF
    { st with currentIndex := (st.currentIndex + 1) % numUrls })

/-! === SWAP EVENT HANDLER (poolfetcher.js lines 320-469) ===

The JS handler reads and mutates pool objects that are shared between
poolsByAddr, poolsByPairKey and poolsByToken.  The model keeps the registry
map from lowercased address to pool as the single store; the two list indexes
hold addresses and every access resolves them through the current store, which
reproduces the shared-object semantics (the updated reserves of the notified
pool are visible through every index).  The wall-clock timestamp, block number
and transaction hash copied verbatim into emitted records are omitted. -/

/-- A direct-arbitrage record as assembled by the swap handler. -/
structure DirectRec where
  token0 : String
  token1 : String
  dexA : String
  dexB : String
  priceA : JsNum
  priceB : JsNum
  poolAddrA : String
  poolAddrB : String
  edge : JsNum
  estProfitUSD : JsNum
deriving DecidableEq, Repr

/-- A triangular-arbitrage record as assembled by the swap handler. -/
structure TriRec where
  route : List String
  pools : List String
  dexs : List String
  cycleRate : JsNum
  edge : JsNum
  estProfitUSD : JsNum
deriving DecidableEq, Repr

/-- The reserve refresh: pool.reserve0 = updated.reserve0 and likewise for
reserve1; the other fields are untouched. -/
def updateReserves (p : RawPool) (r0 r1 : ℚ) : RawPool :=
  { p with reserve0 := r0, reserve1 := r1 }

/-- Body of the direct-arb loop of the swap handler for one candidate pool of
the same-pair group. -/
def directRecFor (pool other : RawPool) (priceA : JsNum) (edgeThreshold : ℚ) :
    Option DirectRec :=
  if other.pairAddr = pool.pairAddr then none
  else
    let priceB := calcPrice (JsNum.num other.reserve0) (JsNum.num other.reserve1)
    let edge := estimateDirectEdge priceA priceB pool.dex other.dex
    if JsNum.gtB edge (JsNum.num edgeThreshold) then
      let estProfitUSD := edgeToProfitUSD edge
      if JsNum.geB estProfitUSD (JsNum.num MIN_PROFIT_USD) then
        some { token0 := pool.token0, token1 := pool.token1, dexA := pool.dex,
               dexB := other.dex, priceA := priceA, priceB := priceB,
               poolAddrA := pool.pairAddr, poolAddrB := other.pairAddr,
               edge := edge, estProfitUSD := estProfitUSD }
      else none
    else none

/-- Body of the innermost triangular loop of the swap handler: pool3 must
close the loop tokenC -> tokenA; then the cycle rate, edge and profit gates
run. -/
def triRecFor (pool pool2 pool3 : RawPool) (tokenA tokenB tokenC : String) :
    Option TriRec :=
  if (pool3.token0 = tokenC ∧ pool3.token1 = tokenA) ∨
     (pool3.token1 = tokenC ∧ pool3.token0 = tokenA) then
    let rate1 := calcPrice (JsNum.num pool.reserve0) (JsNum.num pool.reserve1)
    let rate2 := calcPrice (JsNum.num pool2.reserve0) (JsNum.num pool2.reserve1)
    let rate3 := calcPrice (JsNum.num pool3.reserve0) (JsNum.num pool3.reserve1)
    let cycleRate := JsNum.mul (JsNum.mul rate1 rate2) rate3
    let dexs := [pool.dex, pool2.dex, pool3.dex]
    let edgeTri := estimateTriEdge cycleRate dexs
    if JsNum.gtB edgeTri (JsNum.num 0) then
      let estProfitUSD := edgeToProfitUSD edgeTri
      if JsNum.geB estProfitUSD (JsNum.num MIN_PROFIT_USD) then
        some { route := [tokenA, tokenB, tokenC, tokenA],
               pools := [pool.pairAddr, pool2.pairAddr, pool3.pairAddr],
               dexs := dexs, cycleRate := cycleRate, edge := edgeTri,
               estProfitUSD := estProfitUSD }
      else none
    else none
  else none

/-- The direct-arb loop of the swap handler: the updated pool against every
other resolved member of its same-pair group (priceA is computed once from
the updated reserves). -/
def directRecs (pool' : RawPool) (group : List RawPool) (edgeThreshold : ℚ) :
    List DirectRec :=
  group.filterMap (fun other =>
    directRecFor pool' other
      (calcPrice (JsNum.num pool'.reserve0) (JsNum.num pool'.reserve1))
      edgeThreshold)

/-- The triangular-arb loops of the swap handler: pool2 ranges over the
token-adjacency entry of tokenB = token1 of the updated pool, tokenC is the
other token of pool2, and pool3 ranges over the adjacency entry of tokenC. -/
def triRecs (pool' : RawPool) (lookup : String → List RawPool) : List TriRec :=
  (lookup pool'.token1).flatMap (fun pool2 =>
    if pool2.pairAddr = pool'.pairAddr then []
    else
      let tokenC := if pool2.token0 = pool'.token1 then pool2.token1 else pool2.token0
      if tokenC = pool'.token0 then []
      else (lookup tokenC).filterMap
        (fun pool3 =>
          triRecFor pool' pool2 pool3 pool'.token0 pool'.token1 tokenC))

/-- The swap-event handler of startSwapWatch for one log notification.
Input: the registry map (lowercased address to pool), the two index maps as
address lists, the edge threshold, the notified address, and the reserves the
getPairInfo refresh returns.  Output: the registry after the refresh and the
direct and triangular records emitted. -/
def swapHandler (st : String → Option RawPool) (bp bt : String → List String)
    (edgeThreshold : ℚ) (logAddr : String) (newR0 newR1 : ℚ) :
    (String → Option RawPool) × List DirectRec × List TriRec :=
  match st (jsToLower logAddr) with
  | none => (st, [], [])
  | some pool =>
    let pool' := updateReserves pool newR0 newR1
    let st' : String → Option RawPool :=
      fun a => if a = jsToLower logAddr then some pool' else st a
    (st',
     directRecs pool' ((bp (pairKey pool'.token0 pool'.token1)).filterMap st')
       edgeThreshold,
     triRecs pool' (fun t => (bt t).filterMap st'))

/-! === HELPER LEMMAS === -/

lemma feeBpsForDex_nonneg (name : String) : 0 ≤ feeBpsForDex name := by
  simp only [feeBpsForDex, DEX_FEE_BPS]
  split_ifs <;> norm_num [DEFAULT_FEE_BPS]

lemma bpsToFrac_feeBpsForDex_nonneg (name : String) :
    0 ≤ bpsToFrac (feeBpsForDex name) := by
  have := feeBpsForDex_nonneg name
  unfold bpsToFrac
  positivity

lemma clamp_nonneg (e : JsNum) :
    ∃ q : ℚ, 0 ≤ q ∧
      (if e.isFinite then JsNum.max e (JsNum.num 0) else JsNum.num 0)
        = JsNum.num q := by
  cases e with
  | num a =>
    refine ⟨if a < 0 then 0 else a, ?_, by simp [JsNum.max, JsNum.isFinite]⟩
    split_ifs with h
    · exact le_refl 0
    · exact le_of_not_lt h
  | nan => exact ⟨0, le_refl 0, by simp⟩
  | inf => exact ⟨0, le_refl 0, by simp⟩
  | ninf => exact ⟨0, le_refl 0, by simp⟩

lemma jsMax_neg_zero (f : ℚ) (hf : 0 ≤ f) :
    JsNum.max (JsNum.num (-f)) (JsNum.num 0) = JsNum.num 0 := by
  simp only [JsNum.max]
  rcases lt_or_eq_of_le hf with h | h
  · rw [if_pos (by linarith)]
  · rw [← h]
    norm_num

lemma estimateDirectEdgeFee_nonneg (pA pB : JsNum) (fee : ℚ) :
    ∃ q : ℚ, 0 ≤ q ∧ estimateDirectEdgeFee pA pB fee = JsNum.num q :=
  clamp_nonneg _

/-! === CLAIM THEOREMS === -/

/-- C9: pairKey is insensitive to the order of its two arguments, and in the
poolsByPairKey index built at bootstrap every pool appears under exactly one
key, namely the pair key of its own two tokens, independent of the token0 and
token1 insertion order. -/
theorem pairKey_symm_unique_entry :
    (∀ a b : String, pairKey a b = pairKey b a) ∧
    (∀ (pools : List RawPool) (q : RawPool) (k : String),
      q ∈ poolsByPairKeyBuild pools k ↔
        (q ∈ pools ∧ k = pairKey q.token0 q.token1)) := by
  constructor
  · intro a b
    by_cases h : charListLtb (jsToLower a).data (jsToLower b).data = true
    · have h2 := charListLtb_asymm _ _ h
      simp [pairKey, jsStrLtb, h, h2]
    · by_cases h3 : charListLtb (jsToLower b).data (jsToLower a).data = true
      · simp [pairKey, jsStrLtb, h, h3]
      · have heq : (jsToLower a).data = (jsToLower b).data :=
          charListLtb_eq _ _ (by simpa using h) (by simpa using h3)
        have heq2 : jsToLower a = jsToLower b := congrArg String.mk heq
        simp [pairKey, jsStrLtb, h, h3, heq2]
  · intro pools q k
    exact mem_poolsByPairKeyBuild pools k q

/-- C8 amended: for positive reserves (nonzero unsigned reserves), the exact
rational values of the spot prices are multiplicative inverses of each other:
calcPrice r0 r1 = 1 / calcPrice r1 r0 over the rationals.  The binary64
doubles the program stores satisfy this only up to rounding; exact equality
can fail by one ulp (see the counterexample at reserves 3 and 11). -/
theorem calcPrice_inversion (r0 r1 : ℚ) (h0 : 0 < r0) (h1 : 0 < r1) :
    calcPrice (JsNum.num r0) (JsNum.num r1) =
      JsNum.div (JsNum.num 1) (calcPrice (JsNum.num r1) (JsNum.num r0)) := by
  have h0' : r0 ≠ 0 := ne_of_gt h0
  have h1' : r1 ≠ 0 := ne_of_gt h1
  have hdiv : r1 / r0 ≠ 0 := div_ne_zero h1' h0'
  have hfrac : (1:ℚ) / (r1 / r0) = r0 / r1 := one_div_div r1 r0
  norm_num [calcPrice, h0, h1, h0', h1', hdiv, hfrac]

/-- C8 witness: instantiated at reserves 2 and 5. -/
theorem calcPrice_inversion_witness :
    (0:ℚ) < 2 ∧ (0:ℚ) < 5 ∧
    calcPrice (JsNum.num 2) (JsNum.num 5) =
      JsNum.div (JsNum.num 1) (calcPrice (JsNum.num 5) (JsNum.num 2)) :=
  ⟨by norm_num, by norm_num, calcPrice_inversion 2 5 (by norm_num) (by norm_num)⟩

/-- Round a rational to the nearest integer, ties to even: the rounding of
IEEE-754 binary64 arithmetic. -/
def roundNE (x : ℚ) : ℤ :=
  let f := ⌊x⌋
  let r := x - f
  if r < 1/2 then f
  else if 1/2 < r then f + 1
  else if f % 2 = 0 then f else f + 1

/-- The correctly rounded binary64 value of q on a grid of spacing ulp: for
2^e ≤ q < 2^(e+1) the binary64 doubles are spaced ulp = 2^(e-52), and an IEEE
operation on exact operands returns the nearest grid point (ties to even). -/
def roundToGrid (q ulp : ℚ) : ℚ := (roundNE (q / ulp) : ℚ) * ulp

lemma roundNE_eq_down (x : ℚ) (n : ℤ) (h1 : (n:ℚ) ≤ x) (h2 : x < n + 1/2) :
    roundNE x = n := by
  have hf : ⌊x⌋ = n := Int.floor_eq_iff.mpr ⟨h1, by linarith⟩
  simp only [roundNE, hf]
  rw [if_pos (by linarith)]

lemma roundNE_eq_up (x : ℚ) (n : ℤ) (h1 : (n:ℚ) - 1/2 < x) (h2 : x < n) :
    roundNE x = n := by
  have hf : ⌊x⌋ = n - 1 := by
    apply Int.floor_eq_iff.mpr
    constructor
    · push_cast
      linarith
    · push_cast
      linarith
  simp only [roundNE, hf]
  rw [if_neg (by push_cast; linarith), if_pos (by push_cast; linarith)]
  omega

/-- The binary64 value of 3/11: the binade is [1/4, 1/2), so the ulp is
2^(-54); the significand rounds down. -/
lemma fl_of_3_div_11 :
    roundToGrid (3/11) (1/2^54) = 4913017775313268 / 2^54 := by
  have harg : (3/11 : ℚ) / (1/2^54) = 54043195528445952/11 := by norm_num
  have hr : roundNE ((3/11 : ℚ) / (1/2^54)) = 4913017775313268 := by
    rw [harg]
    apply roundNE_eq_down
    · norm_num
    · norm_num
  simp only [roundToGrid, hr]
  norm_num

/-- The binary64 value of 11/3: the binade is [2, 4), so the ulp is 2^(-51);
the significand rounds down. -/
lemma fl_of_11_div_3 :
    roundToGrid (11/3) (1/2^51) = 8256599316845909 / 2^51 := by
  have harg : (11/3 : ℚ) / (1/2^51) = 24769797950537728/3 := by norm_num
  have hr : roundNE ((11/3 : ℚ) / (1/2^51)) = 8256599316845909 := by
    rw [harg]
    apply roundNE_eq_down
    · norm_num
    · norm_num
  simp only [roundToGrid, hr]
  norm_num

/-- The binary64 value of 1 / fl(11/3): the exact quotient lies in [1/4, 1/2)
and its significand rounds up, landing one ulp above fl(3/11). -/
lemma fl_of_inv_fl :
    roundToGrid (1 / ((8256599316845909:ℚ) / 2^51)) (1/2^54)
      = 4913017775313269 / 2^54 := by
  have harg : (1:ℚ) / ((8256599316845909:ℚ) / 2^51) / (1/2^54)
      = 40564819207303340847894502572032/8256599316845909 := by norm_num
  have hr : roundNE ((1:ℚ) / ((8256599316845909:ℚ) / 2^51) / (1/2^54))
      = 4913017775313269 := by
    rw [harg]
    apply roundNE_eq_up
    · norm_num
    · norm_num
  simp only [roundToGrid, hr]
  norm_num

/-- C8 counterexample: the spot prices the program stores are binary64
doubles.  With reserves 3 and 11 (both nonzero) calcPrice computes the exact
quotients 3/11 and 11/3 in the rational model, but the correctly rounded
doubles the program holds violate the inversion identity: fl(1 / fl(11/3)) is
one ulp above fl(3/11), and fl(3/11) * fl(11/3) is not 1.  (In JS, 3/11
evaluates to 0.2727272727272727 while 1/(11/3) evaluates to
0.27272727272727276.)  The binade bounds recorded below certify the ulp used
for each rounding. -/
theorem calcPrice_inversion_counterexample :
    calcPrice (JsNum.num 3) (JsNum.num 11) = JsNum.num (3 / 11) ∧
    calcPrice (JsNum.num 11) (JsNum.num 3) = JsNum.num (11 / 3) ∧
    ((1:ℚ)/4 ≤ 3/11 ∧ (3:ℚ)/11 < 1/2) ∧
    ((2:ℚ) ≤ 11/3 ∧ (11:ℚ)/3 < 4) ∧
    roundToGrid (3/11) (1/2^54) = 4913017775313268 / 2^54 ∧
    roundToGrid (11/3) (1/2^51) = 8256599316845909 / 2^51 ∧
    ((1:ℚ)/4 ≤ 1 / ((8256599316845909:ℚ) / 2^51) ∧
      (1:ℚ) / ((8256599316845909:ℚ) / 2^51) < 1/2) ∧
    roundToGrid (1 / ((8256599316845909:ℚ) / 2^51)) (1/2^54)
      = 4913017775313269 / 2^54 ∧
    (4913017775313269:ℚ) / 2^54 ≠ 4913017775313268 / 2^54 ∧
    (4913017775313268:ℚ) / 2^54 * ((8256599316845909:ℚ) / 2^51) ≠ 1 := by
  refine ⟨by norm_num [calcPrice], by norm_num [calcPrice],
    ⟨by norm_num, by norm_num⟩, ⟨by norm_num, by norm_num⟩,
    fl_of_3_div_11, fl_of_11_div_3, ⟨by norm_num, by norm_num⟩,
    fl_of_inv_fl, by norm_num, by norm_num⟩

lemma estimateDirectEdgeFee_self (q fee : ℚ) (hfee : 0 ≤ fee) :
    estimateDirectEdgeFee (JsNum.num q) (JsNum.num q) fee = JsNum.num 0 := by
  have habs : JsNum.abs (JsNum.sub (JsNum.num q) (JsNum.num q)) = JsNum.num 0 := by
    simp
  have hmid : JsNum.div (JsNum.add (JsNum.num q) (JsNum.num q)) (JsNum.num 2)
      = JsNum.num q := by
    have h2 : (q + q) / 2 = q := by ring
    norm_num [h2]
  simp only [estimateDirectEdgeFee]
  rw [habs, hmid]
  by_cases hq : q = 0
  · subst hq
    have hor : JsNum.orElse (JsNum.num 0) (JsNum.num 1) = JsNum.num 1 := by norm_num
    rw [hor]
    have hdiv : JsNum.div (JsNum.num 0) (JsNum.num 1) = JsNum.num 0 := by norm_num
    rw [hdiv]
    have hsub : JsNum.sub (JsNum.num 0) (JsNum.num fee) = JsNum.num (-fee) := by
      simp
    rw [hsub]
    simpa using jsMax_neg_zero fee hfee
  · have hor : JsNum.orElse (JsNum.num q) (JsNum.num 1) = JsNum.num q := by
      simp [hq]
    rw [hor]
    have hdiv : JsNum.div (JsNum.num 0) (JsNum.num q) = JsNum.num 0 := by
      simp [hq]
    rw [hdiv]
    have hsub : JsNum.sub (JsNum.num 0) (JsNum.num fee) = JsNum.num (-fee) := by
      simp
    rw [hsub]
    simpa using jsMax_neg_zero fee hfee

/-- C6: estimateDirectEdge always returns a finite non-negative number, and
equal venue prices give edge exactly 0 whatever the two exchange names are. -/
theorem estimateDirectEdge_nonneg_eq_prices :
    (∀ (pA pB : JsNum) (dexA dexB : String),
      ∃ q : ℚ, 0 ≤ q ∧ estimateDirectEdge pA pB dexA dexB = JsNum.num q) ∧
    (∀ (p : JsNum) (dexA dexB : String),
      estimateDirectEdge p p dexA dexB = JsNum.num 0) := by
  constructor
  · intro pA pB dexA dexB
    exact estimateDirectEdgeFee_nonneg pA pB _
  · intro p dexA dexB
    have hfee : 0 ≤ bpsToFrac (feeBpsForDex dexA) + bpsToFrac (feeBpsForDex dexB) :=
      add_nonneg (bpsToFrac_feeBpsForDex_nonneg dexA)
        (bpsToFrac_feeBpsForDex_nonneg dexB)
    cases p with
    | num q => exact estimateDirectEdgeFee_self q _ hfee
    | nan => norm_num [estimateDirectEdge, estimateDirectEdgeFee]
    | inf => norm_num [estimateDirectEdge, estimateDirectEdgeFee]
    | ninf => norm_num [estimateDirectEdge, estimateDirectEdgeFee]

/-- C7: a triangular cycle whose cycle rate is exactly 1 yields edge exactly 0
whenever the total leg fee is positive. -/
theorem estimateTriEdge_unit_cycle (dexs : List String)
    (h : 0 < dexs.foldl (fun s d => s + bpsToFrac (feeBpsForDex d)) 0) :
    estimateTriEdge (JsNum.num 1) dexs = JsNum.num 0 := by
  simp only [estimateTriEdge]
  set t := dexs.foldl (fun s d => s + bpsToFrac (feeBpsForDex d)) 0 with ht
  have hor : JsNum.orElse (JsNum.num 1) (JsNum.num 0) = JsNum.num 1 := by norm_num
  rw [hor]
  have hone : JsNum.sub (JsNum.num 1) (JsNum.num 1) = JsNum.num 0 := by simp
  rw [hone]
  have hsub : JsNum.sub (JsNum.num 0) (JsNum.num t) = JsNum.num (-t) := by simp
  rw [hsub]
  simpa using jsMax_neg_zero t (le_of_lt h)

/-- C7 witness: one QuickSwap leg gives total fee 30 bps which is positive. -/
theorem estimateTriEdge_unit_cycle_witness :
    (0:ℚ) < ["QuickSwap"].foldl (fun s d => s + bpsToFrac (feeBpsForDex d)) 0 ∧
    estimateTriEdge (JsNum.num 1) ["QuickSwap"] = JsNum.num 0 :=
  ⟨by norm_num [bpsToFrac, feeBpsForDex, DEX_FEE_BPS],
   estimateTriEdge_unit_cycle ["QuickSwap"]
     (by norm_num [bpsToFrac, feeBpsForDex, DEX_FEE_BPS])⟩

lemma gtB_zero_ne (x : JsNum) (h : JsNum.gtB x (JsNum.num 0) = true) :
    x ≠ JsNum.num 0 := by
  cases x with
  | num q =>
    simp only [JsNum.gtB, decide_eq_true_eq] at h
    intro hc
    injection hc with hq
    rw [hq] at h
    exact lt_irrefl 0 h
  | nan => simp [JsNum.gtB] at h
  | inf => exact fun hc => JsNum.noConfusion hc
  | ninf => simp [JsNum.gtB] at h

/-- C3 counterexample: with venue prices 100 and 102 and a zero fee sum the
code computes exactly 2/101 = 0.01980..., which lies strictly between 0.01965
and 0.01985; it is approximately 0.0198 (1.98 percent), not approximately
0.0196, from which it differs by more than 0.0002. -/
theorem scenarioA_direct_edge_counterexample :
    estimateDirectEdgeFee (JsNum.num 100) (JsNum.num 102) 0 = JsNum.num (2 / 101) ∧
    (2:ℚ) / 101 ≠ 196 / 10000 ∧
    (1965:ℚ) / 100000 < 2 / 101 ∧ (2:ℚ) / 101 < 1985 / 100000 := by
  refine ⟨?_, by norm_num, by norm_num, by norm_num⟩
  norm_num [estimateDirectEdgeFee]

/-- C3 amended: reserves giving spot prices 100 and 102 with zero fees yield a
direct edge of exactly 2/101, approximately 0.0198 (about 1.98 percent): the
relative difference 2 is measured against the midpoint 101. -/
theorem scenarioA_direct_edge_amended :
    calcPrice (JsNum.num 200) (JsNum.num 2) = JsNum.num 100 ∧
    calcPrice (JsNum.num 510) (JsNum.num 5) = JsNum.num 102 ∧
    estimateDirectEdgeFee (JsNum.num 100) (JsNum.num 102) 0 = JsNum.num (2 / 101) ∧
    (197:ℚ) / 10000 < 2 / 101 ∧ (2:ℚ) / 101 < 199 / 10000 := by
  refine ⟨by norm_num [calcPrice], by norm_num [calcPrice], ?_, by norm_num,
    by norm_num⟩
  norm_num [estimateDirectEdgeFee]

/-- C10 counterexample: a positive-Infinity reserve passes the r0 > 0 guard
and produces an Infinity price, not 0; and a zero-reserve pool whose price is
0 produces, against a pool of price 100, a direct edge of 997/500 (about 199
percent), not 0. -/
theorem failure_semantics_counterexample :
    calcPrice JsNum.inf (JsNum.num 1) = JsNum.inf ∧
    calcPrice (JsNum.num 0) (JsNum.num 5) = JsNum.num 0 ∧
    estimateDirectEdge (JsNum.num 0) (JsNum.num 100) "QuickSwap" "SushiSwap"
      = JsNum.num (997 / 500) ∧
    (997:ℚ) / 500 ≠ 0 := by
  refine ⟨by norm_num [calcPrice], by norm_num [calcPrice], ?_, by norm_num⟩
  norm_num +decide [estimateDirectEdge, estimateDirectEdgeFee, feeBpsForDex,
    DEX_FEE_BPS, bpsToFrac]

/-- C10 amended: a missing fee entry falls back to the default fee; a zero or
NaN reserve gives price 0; any non-finite venue price gives direct edge 0; and
the division inside calcPrice runs only when both guarded operands pass the
greater-than-zero test, so its divisor is never the number 0.  (An Infinity
reserve, however, gives an Infinity price, see the counterexample.) -/
theorem failure_semantics_amended :
    (∀ name : String, DEX_FEE_BPS name = none →
      feeBpsForDex name = DEFAULT_FEE_BPS) ∧
    (∀ r : JsNum,
      calcPrice (JsNum.num 0) r = JsNum.num 0 ∧
      calcPrice r (JsNum.num 0) = JsNum.num 0 ∧
      calcPrice JsNum.nan r = JsNum.num 0 ∧
      calcPrice r JsNum.nan = JsNum.num 0) ∧
    (∀ (pA pB : JsNum) (dexA dexB : String),
      ¬(pA.isFinite = true ∧ pB.isFinite = true) →
      estimateDirectEdge pA pB dexA dexB = JsNum.num 0) ∧
    (∀ r0 r1 : JsNum,
      calcPrice r0 r1 = JsNum.num 0 ∨
      (JsNum.gtB (JsNum.orElse r0 (JsNum.num 0)) (JsNum.num 0) = true ∧
       JsNum.gtB (JsNum.orElse r1 (JsNum.num 0)) (JsNum.num 0) = true ∧
       JsNum.orElse r1 (JsNum.num 0) ≠ JsNum.num 0 ∧
       calcPrice r0 r1 =
         JsNum.div (JsNum.orElse r0 (JsNum.num 0))
           (JsNum.orElse r1 (JsNum.num 0)))) := by
  refine ⟨?_, ?_, ?_, ?_⟩
  · intro name h
    simp [feeBpsForDex, h]
  · intro r
    refine ⟨by simp [calcPrice], by simp [calcPrice], by simp [calcPrice],
      by simp [calcPrice]⟩
  · intro pA pB dexA dexB h
    cases pA with
    | num a =>
      cases pB with
      | num b => exact absurd ⟨rfl, rfl⟩ h
      | nan => norm_num [estimateDirectEdge, estimateDirectEdgeFee]
      | inf => norm_num [estimateDirectEdge, estimateDirectEdgeFee]
      | ninf => norm_num [estimateDirectEdge, estimateDirectEdgeFee]
    | nan => cases pB <;> norm_num [estimateDirectEdge, estimateDirectEdgeFee]
    | inf => cases pB <;> norm_num [estimateDirectEdge, estimateDirectEdgeFee]
    | ninf => cases pB <;> norm_num [estimateDirectEdge, estimateDirectEdgeFee]
  · intro r0 r1
    by_cases hc : (JsNum.gtB (JsNum.orElse r0 (JsNum.num 0)) (JsNum.num 0) &&
        JsNum.gtB (JsNum.orElse r1 (JsNum.num 0)) (JsNum.num 0)) = true
    · have hc2 := hc
      simp only [Bool.and_eq_true] at hc2
      obtain ⟨h0, h1⟩ := hc2
      exact Or.inr ⟨h0, h1, gtB_zero_ne _ h1,
        by simp only [calcPrice]; rw [if_pos hc]⟩
    · exact Or.inl (by simp only [calcPrice]; rw [if_neg hc])

/-- C10 amended witness: the fee fallback at an unknown exchange name and the
edge clamp at an Infinity price, instantiated. -/
theorem failure_semantics_amended_witness :
    DEX_FEE_BPS "Balancer" = none ∧
    feeBpsForDex "Balancer" = DEFAULT_FEE_BPS ∧
    estimateDirectEdge JsNum.inf (JsNum.num 3) "DODO" "Uniswap" = JsNum.num 0 :=
  ⟨by rfl, failure_semantics_amended.1 "Balancer" (by rfl),
   failure_semantics_amended.2.2.1 JsNum.inf (JsNum.num 3) "DODO" "Uniswap"
     (by simp)⟩

/-- C1 counterexample: after connectProvider, startListeners and one
startSwapWatch subscription, the forced failover (with two configured
endpoints) loses the swap (filter, handler) entry: it is attached before the
rotation and absent afterwards, while only the error and block listeners are
re-armed. -/
theorem subscription_survival_counterexample :
    WsListener.log 7 2 ∈
      (startSwapWatchPF (startListenersPF (connectProviderPF ⟨0, []⟩)) 7 2).listeners ∧
    WsListener.log 7 2 ∉
      (failoverPF 2 (startSwapWatchPF (startListenersPF
        (connectProviderPF ⟨0, []⟩)) 7 2)).listeners := by
  decide

/-- C1 amended: a rotation that goes through the subscription registry
(dataprovider.js _rotateRead) re-arms exactly the recorded subscriptions
against the fresh provider, in original registration order, and keeps the
registry itself unchanged; the WebSocket failover of poolfetcher.js does not
re-arm swap subscriptions (see the counterexample). -/
theorem subscription_survival_amended (st : ReadState) :
    (rotateRead st).providerListeners = st.subs ∧
    (rotateRead st).subs = st.subs := by
  unfold rotateRead
  constructor
  · simpa using foldl_append_singleton st.subs []
  · rfl

/-- Registry errors named by the spec. -/
inductive RegistryError where
  | UnknownPool
deriving DecidableEq, Repr

/-- Modelled from the spec words of claim C4: refreshReserves updates only the
reserves of a registered pool and fails with UnknownPool for an unregistered
address.  No function of the source implements this contract; the definition
exists only to compare the claim against the actual swap handler. -/
def refreshReservesClaimed (st : String → Option RawPool) (addr : String)
    (r0 r1 : ℚ) : Except RegistryError (String → Option RawPool) :=
  match st addr with
  | none => Except.error RegistryError.UnknownPool
  | some p =>
      Except.ok (fun a => if a = addr then some (updateReserves p r0 r1) else st a)

/-- C4 counterexample: for an unregistered address the claim requires an
UnknownPool failure, but the swap handler returns normally with the registry
untouched and no records emitted -- the notification is silently ignored. -/
theorem unknown_pool_counterexample :
    refreshReservesClaimed (fun _ => none) "0xdead" 5 7
      = Except.error RegistryError.UnknownPool ∧
    swapHandler (fun _ => none) (fun _ => []) (fun _ => []) 0 "0xdead" 5 7
      = ((fun _ => none), [], []) := by
  exact ⟨rfl, rfl⟩

/-- C4 amended: a reserve refresh driven by a swap notification for an
address that is not in the registry is silently ignored: the handler returns
with the registry unchanged, emits nothing, and raises no error. -/
theorem unknown_pool_amended (st : String → Option RawPool)
    (bp bt : String → List String) (thr : ℚ) (la : String) (r0 r1 : ℚ)
    (h : st (jsToLower la) = none) :
    swapHandler st bp bt thr la r0 r1 = (st, [], []) := by
  unfold swapHandler
  rw [h]

/-- C4 amended witness: instantiated at an empty registry. -/
theorem unknown_pool_amended_witness :
    (fun _ : String => (none : Option RawPool)) (jsToLower "0xbeef") = none ∧
    swapHandler (fun _ => none) (fun _ => []) (fun _ => []) 0 "0xbeef" 1 2
      = ((fun _ => none), [], []) :=
  ⟨rfl, unknown_pool_amended (fun _ => none) (fun _ => []) (fun _ => [])
    0 "0xbeef" 1 2 rfl⟩

/-- Following the words of claim C2: the USD value of each of the two reserves
of the pool strictly exceeds the configured minimum.  Stated only to compare
the claim against the actual filter. -/
def bothReservesExceedMin (prices : String → Option ℚ) (p : RawPool) : Prop :=
  MIN_LIQUIDITY_USD < tokenPriceUsd prices p.token0 * p.reserve0 / 10 ^ 18 ∧
  MIN_LIQUIDITY_USD < tokenPriceUsd prices p.token1 * p.reserve1 / 10 ^ 18

/-- Price map of the C2 scenario: both tokens are worth exactly 1 USD. -/
def pricesC2 : String → Option ℚ := fun t =>
  if t = "0xaaa" then some 1 else if t = "0xbbb" then some 1 else none

/-- Pool of the C2 counterexample: reserve0 is worth exactly 60000 USD,
reserve1 is zero.  At this input binary64 evaluation is exact: 6 * 10^22 =
7152557373046875 * 2^23 and 10^18 are exactly representable doubles, the
division 6e22 / 1e18 = 60000 is exact, and 0 / 1e18 = 0, so the program
computes liquidityUSD = 60000 exactly as the rational model does. -/
def poolC2 : RawPool :=
  { dex := "QuickSwap", pairAddr := "0xp1", token0 := "0xaaa",
    token1 := "0xbbb", reserve0 := 60000 * 10 ^ 18, reserve1 := 0 }

/-- C2 counterexample: the pool passes the actual filter (the sum of its two
reserve USD values is 60000, at or above the 50000 minimum, computed exactly
in binary64 as well) and is inserted, although the USD value of reserve1 is 0
and so the value of both reserves does not exceed the minimum. -/
theorem liquidity_gate_counterexample :
    poolC2 ∈ filteredPools pricesC2 [poolC2] ∧
    ¬ bothReservesExceedMin pricesC2 poolC2 := by
  have ha : jsToLower "0xaaa" = "0xaaa" := by decide
  have hb : jsToLower "0xbbb" = "0xbbb" := by decide
  constructor
  · rw [mem_filteredPools]
    refine ⟨List.mem_singleton_self _, ?_⟩
    simp only [liquidityUSD, tokenPriceUsd, poolC2, ha, hb]
    norm_num +decide [pricesC2, MIN_LIQUIDITY_USD]
  · simp only [bothReservesExceedMin, tokenPriceUsd, poolC2, ha, hb]
    norm_num +decide [pricesC2, MIN_LIQUIDITY_USD]

/-- C2 amended: a pool is kept at bootstrap exactly when the sum of the USD
values of its two reserves (each scaled by 10^18) passes MIN_LIQUIDITY_USD;
and a pool strictly below this bound appears in none of the three indexes the
recompute reads, hence never in any recompute. -/
theorem liquidity_gate_amended (prices : String → Option ℚ)
    (pools : List RawPool) (q : RawPool) :
    (q ∈ filteredPools prices pools ↔
      (q ∈ pools ∧ MIN_LIQUIDITY_USD ≤ liquidityUSD prices q)) ∧
    (liquidityUSD prices q < MIN_LIQUIDITY_USD →
      (∀ k, q ∉ poolsByPairKeyBuild (filteredPools prices pools) k) ∧
      (∀ t, q ∉ poolsByTokenBuild (filteredPools prices pools) t) ∧
      (∀ a, poolsByAddrBuild (filteredPools prices pools) a ≠ some q)) := by
  have hmem := mem_filteredPools prices pools q
  refine ⟨hmem, fun hlt => ⟨?_, ?_, ?_⟩⟩
  · intro k hk
    have h1 := (mem_poolsByPairKeyBuild _ _ _).mp hk
    have h2 := (hmem.mp h1.1).2
    linarith
  · intro t ht
    have h1 := (mem_poolsByTokenBuild _ _ _).mp ht
    have h2 := (hmem.mp h1.1).2
    linarith
  · intro a ha
    have h1 := poolsByAddrBuild_eq_some _ _ _ ha
    have h2 := (hmem.mp h1.1).2
    linarith

/-- Pool of the C2 amended witness: total reserve value 2 USD, far below the
minimum. -/
def poolC2low : RawPool :=
  { dex := "SushiSwap", pairAddr := "0xp2", token0 := "0xaaa",
    token1 := "0xbbb", reserve0 := 10 ^ 18, reserve1 := 10 ^ 18 }

/-- C2 amended witness: the low-liquidity pool is below the bound and absent
from the token index built over the filtered list. -/
theorem liquidity_gate_amended_witness :
    liquidityUSD pricesC2 poolC2low < MIN_LIQUIDITY_USD ∧
    poolC2low ∉ poolsByTokenBuild (filteredPools pricesC2 [poolC2low]) "0xaaa" := by
  have ha : jsToLower "0xaaa" = "0xaaa" := by decide
  have hb : jsToLower "0xbbb" = "0xbbb" := by decide
  have hlow : liquidityUSD pricesC2 poolC2low < MIN_LIQUIDITY_USD := by
    simp only [liquidityUSD, tokenPriceUsd, poolC2low, ha, hb]
    norm_num +decide [pricesC2, MIN_LIQUIDITY_USD]
  exact ⟨hlow,
    ((liquidity_gate_amended pricesC2 [poolC2low] poolC2low).2 hlow).2.1 "0xaaa"⟩

lemma swapHandler_none_eq (st : String → Option RawPool)
    (bp bt : String → List String) (thr : ℚ) (la : String) (r0 r1 : ℚ)
    (h : st (jsToLower la) = none) :
    swapHandler st bp bt thr la r0 r1 = (st, [], []) := by
  unfold swapHandler
  rw [h]

lemma swapHandler_some_eq (st : String → Option RawPool)
    (bp bt : String → List String) (thr : ℚ) (la : String) (r0 r1 : ℚ)
    (pool : RawPool) (h : st (jsToLower la) = some pool) :
    swapHandler st bp bt thr la r0 r1 =
      (fun a => if a = jsToLower la then some (updateReserves pool r0 r1) else st a,
       directRecs (updateReserves pool r0 r1)
         ((bp (pairKey pool.token0 pool.token1)).filterMap
           (fun a => if a = jsToLower la then some (updateReserves pool r0 r1) else st a))
         thr,
       triRecs (updateReserves pool r0 r1)
         (fun t => (bt t).filterMap
           (fun a => if a = jsToLower la then some (updateReserves pool r0 r1) else st a))) := by
  unfold swapHandler
  rw [h]
  rfl

lemma directRecFor_shape (pool other : RawPool) (pA : JsNum) (thr : ℚ)
    (rec : DirectRec) (h : directRecFor pool other pA thr = some rec) :
    rec.poolAddrA = pool.pairAddr ∧ rec.poolAddrB = other.pairAddr := by
  simp only [directRecFor] at h
  split_ifs at h with h1 h2 h3
  · injection h with h4
    subst h4
    exact ⟨rfl, rfl⟩

lemma mem_directRecs (pool' : RawPool) (group : List RawPool) (thr : ℚ)
    (rec : DirectRec) (h : rec ∈ directRecs pool' group thr) :
    rec.poolAddrA = pool'.pairAddr ∧
      ∃ other ∈ group, rec.poolAddrB = other.pairAddr := by
  unfold directRecs at h
  rcases List.mem_filterMap.mp h with ⟨other, hmem, hsome⟩
  obtain ⟨h1, h2⟩ := directRecFor_shape _ _ _ _ _ hsome
  exact ⟨h1, other, hmem, h2⟩

lemma triRecFor_shape (pool pool2 pool3 : RawPool) (tA tB tC : String)
    (rec : TriRec) (h : triRecFor pool pool2 pool3 tA tB tC = some rec) :
    ((pool3.token0 = tC ∧ pool3.token1 = tA) ∨
     (pool3.token1 = tC ∧ pool3.token0 = tA)) ∧
    rec.pools = [pool.pairAddr, pool2.pairAddr, pool3.pairAddr] := by
  simp only [triRecFor] at h
  split_ifs at h with h1 h2 h3
  · injection h with h4
    subst h4
    exact ⟨h1, rfl⟩

lemma mem_triRecs (pool' : RawPool) (lookup : String → List RawPool)
    (rec : TriRec) (h : rec ∈ triRecs pool' lookup) :
    ∃ p2 ∈ lookup pool'.token1, ∃ tC, ∃ p3 ∈ lookup tC,
      ((p3.token0 = tC ∧ p3.token1 = pool'.token0) ∨
       (p3.token1 = tC ∧ p3.token0 = pool'.token0)) ∧
      rec.pools = [pool'.pairAddr, p2.pairAddr, p3.pairAddr] := by
  simp only [triRecs] at h
  rcases List.mem_flatMap.mp h with ⟨p2, hp2, hrec⟩
  by_cases hpa : p2.pairAddr = pool'.pairAddr
  · rw [if_pos hpa] at hrec
    exact absurd hrec (List.not_mem_nil rec)
  · rw [if_neg hpa] at hrec
    by_cases hCA :
      (if p2.token0 = pool'.token1 then p2.token1 else p2.token0) = pool'.token0
    · rw [if_pos hCA] at hrec
      exact absurd hrec (List.not_mem_nil rec)
    · rw [if_neg hCA] at hrec
      rcases List.mem_filterMap.mp hrec with ⟨p3, hp3, hsome⟩
      obtain ⟨hloop, hpools⟩ := triRecFor_shape _ _ _ _ _ _ _ hsome
      exact ⟨p2, hp2, _, p3, hp3, hloop, hpools⟩

lemma mem_triRecs_adjacency (pool' : RawPool) (bt : String → List String)
    (st' : String → Option RawPool)
    (hcons' : ∀ a p, st' a = some p → a ∈ bt p.token0 ∧ a ∈ bt p.token1)
    (rec : TriRec) (h : rec ∈ triRecs pool' (fun t => (bt t).filterMap st')) :
    ∃ p2 ∈ (bt pool'.token1).filterMap st',
    ∃ p3 ∈ (bt pool'.token0).filterMap st',
      rec.pools = [pool'.pairAddr, p2.pairAddr, p3.pairAddr] := by
  obtain ⟨p2, hp2, tC, p3, hp3, hloop, hpools⟩ := mem_triRecs pool' _ rec h
  rcases List.mem_filterMap.mp hp3 with ⟨c, hc, hcs⟩
  have hadj := hcons' c p3 hcs
  have hmemA : c ∈ bt pool'.token0 := by
    rcases hloop with ⟨hc0, hc1⟩ | ⟨hc1, hc0⟩
    · rw [← hc1]
      exact hadj.2
    · rw [← hc0]
      exact hadj.1
  exact ⟨p2, hp2, p3, List.mem_filterMap.mpr ⟨c, hmemA, hcs⟩, hpools⟩

/-- C5: for one swap notification the handler refreshes exactly the notified
pool (every other registry entry is untouched; an unregistered address is a
no-op), every emitted direct record pairs the notified pool with a member of
its own pair-key group, and every emitted triangular record uses the notified
pool as first leg, a pool from the adjacency entry of its token1 as second
leg, and a pool from the adjacency entry of its token0 as third leg.  The
hypothesis states consistency of the token index: every registered pool is
listed under both its tokens. -/
theorem localized_recompute (st : String → Option RawPool)
    (bp bt : String → List String) (thr : ℚ) (la : String) (r0 r1 : ℚ)
    (hcons : ∀ a p, st a = some p → a ∈ bt p.token0 ∧ a ∈ bt p.token1) :
    (∀ b, b ≠ jsToLower la → (swapHandler st bp bt thr la r0 r1).1 b = st b) ∧
    (st (jsToLower la) = none →
      swapHandler st bp bt thr la r0 r1 = (st, [], [])) ∧
    (∀ pool, st (jsToLower la) = some pool →
      (swapHandler st bp bt thr la r0 r1).1 (jsToLower la)
        = some (updateReserves pool r0 r1) ∧
      (∀ rec ∈ (swapHandler st bp bt thr la r0 r1).2.1,
        rec.poolAddrA = pool.pairAddr ∧
        ∃ other ∈ (bp (pairKey pool.token0 pool.token1)).filterMap
            (swapHandler st bp bt thr la r0 r1).1,
          rec.poolAddrB = other.pairAddr) ∧
      (∀ rec ∈ (swapHandler st bp bt thr la r0 r1).2.2,
        ∃ p2 ∈ (bt pool.token1).filterMap (swapHandler st bp bt thr la r0 r1).1,
        ∃ p3 ∈ (bt pool.token0).filterMap (swapHandler st bp bt thr la r0 r1).1,
          rec.pools = [pool.pairAddr, p2.pairAddr, p3.pairAddr])) := by
  refine ⟨?_, swapHandler_none_eq st bp bt thr la r0 r1, ?_⟩
  · intro b hb
    rcases hst : st (jsToLower la) with _ | pool
    · rw [swapHandler_none_eq st bp bt thr la r0 r1 hst]
    · rw [swapHandler_some_eq st bp bt thr la r0 r1 pool hst]
      exact if_neg hb
  · intro pool hpool
    have hcons' : ∀ a p,
        (fun a => if a = jsToLower la then some (updateReserves pool r0 r1) else st a) a
          = some p → a ∈ bt p.token0 ∧ a ∈ bt p.token1 := by
      intro a p h
      simp only [] at h
      by_cases ha : a = jsToLower la
      · rw [if_pos ha] at h
        injection h with h2
        subst h2
        rw [ha]
        exact hcons _ pool hpool
      · rw [if_neg ha] at h
        exact hcons a p h
    rw [swapHandler_some_eq st bp bt thr la r0 r1 pool hpool]
    refine ⟨by simp, ?_, ?_⟩
    · intro rec hrec
      obtain ⟨h1, other, hmem, h2⟩ := mem_directRecs _ _ _ rec hrec
      exact ⟨h1, other, hmem, h2⟩
    · intro rec hrec
      obtain ⟨p2, hp2, p3, hp3, hpools⟩ :=
        mem_triRecs_adjacency (updateReserves pool r0 r1) bt _ hcons' rec hrec
      exact ⟨p2, hp2, p3, hp3, hpools⟩

/-- Pool of the C5 witness registry. -/
def poolW1 : RawPool :=
  { dex := "QuickSwap", pairAddr := "0xp1", token0 := "0xaaa",
    token1 := "0xbbb", reserve0 := 6, reserve1 := 3 }

/-- Registry of the C5 witness: one pool at address 0xp1. -/
def stW : String → Option RawPool := fun a =>
  if a = "0xp1" then some poolW1 else none

/-- Pair index of the C5 witness. -/
def bpW : String → List String := fun k =>
  if k = pairKey "0xaaa" "0xbbb" then ["0xp1"] else []

/-- Token index of the C5 witness: consistent with the registry. -/
def btW : String → List String := fun t =>
  if t = "0xaaa" ∨ t = "0xbbb" then ["0xp1"] else []

lemma stW_cons : ∀ a p, stW a = some p → a ∈ btW p.token0 ∧ a ∈ btW p.token1 := by
  intro a p h
  by_cases ha : a = "0xp1"
  · subst ha
    simp only [stW, if_true, eq_self_iff_true, Option.some.injEq] at h
    subst h
    constructor
    · simp [btW, poolW1]
    · simp [btW, poolW1]
  · simp only [stW, if_neg ha] at h
    exact Option.noConfusion h

/-- C5 witness: the localized-recompute theorem applied to the one-pool
registry, with the index-consistency hypothesis discharged. -/
theorem localized_recompute_witness :
    (∀ b, b ≠ jsToLower "0xDEAD" →
      (swapHandler stW bpW btW 0 "0xDEAD" 8 4).1 b = stW b) ∧
    (stW (jsToLower "0xDEAD") = none →
      swapHandler stW bpW btW 0 "0xDEAD" 8 4 = (stW, [], [])) ∧
    (∀ pool, stW (jsToLower "0xDEAD") = some pool →
      (swapHandler stW bpW btW 0 "0xDEAD" 8 4).1 (jsToLower "0xDEAD")
        = some (updateReserves pool 8 4) ∧
      (∀ rec ∈ (swapHandler stW bpW btW 0 "0xDEAD" 8 4).2.1,
        rec.poolAddrA = pool.pairAddr ∧
        ∃ other ∈ (bpW (pairKey pool.token0 pool.token1)).filterMap
            (swapHandler stW bpW btW 0 "0xDEAD" 8 4).1,
          rec.poolAddrB = other.pairAddr) ∧
      (∀ rec ∈ (swapHandler stW bpW btW 0 "0xDEAD" 8 4).2.2,
        ∃ p2 ∈ (btW pool.token1).filterMap (swapHandler stW bpW btW 0 "0xDEAD" 8 4).1,
        ∃ p3 ∈ (btW pool.token0).filterMap (swapHandler stW bpW btW 0 "0xDEAD" 8 4).1,
          rec.pools = [pool.pairAddr, p2.pairAddr, p3.pairAddr])) :=
  localized_recompute stW bpW btW 0 "0xDEAD" 8 4 stW_cons
